import Mathlib

/-!
# Verification of the flow-notes persistence backend

Shallow embedding of `src/src-tauri/src/main.rs` (a Tauri JSON-file CRUD
backend for notes and PDF annotations).

Modelling conventions:
* A storage directory is an association list `filename → FileData`, each
  filename occurring at most once (the filesystem guarantees this).
* `serde_json` serialization of a typed record is modelled as the injection
  `FileData.valid`; a file whose content fails to parse is `FileData.malformed`
  carrying the parse error message.  For the record types here (no lossy
  fields) `to_string_pretty` followed by `from_str` is exact, so the injection
  is faithful.
* The system clock (`SystemTime::now … as_secs`) is an explicit `Nat`
  parameter `now`.
* Filesystem reads/writes that can only fail on OS-level IO errors are
  modelled as succeeding; the distinguished error returns in the source
  (`"Note not found"`, `"PDF not found"`, parse failures) are kept exactly.
* Rust's `f64` is modelled as `Float`; the code never computes with the
  `rect` values, it only stores them.
-/

/-- `Block` from main.rs (field `r#type` is `type` here, `[f64;4]`-free). -/
structure Block where
  id : String
  type : String
  content : String
  checked : Option Bool
  file_path : Option String
  children : Option (List Block)
  order : Int

/-- `Note` from main.rs. -/
structure Note where
  id : String
  title : String
  blocks : List Block
  created_at : String
  updated_at : String
  tags : Option (List String)

/-- `NoteMetadata` from main.rs. -/
structure NoteMetadata where
  id : String
  title : String
  created_at : String
  updated_at : String
  tags : Option (List String)
deriving DecidableEq

/-- `PDFAnnotation` from main.rs (name shortened; `rect : [f64; 4]` is a
`List Float`). -/
structure PDFAnnot where
  id : String
  annotation_type : String
  content : Option String
  page : Int
  rect : List Float
  color : Option String

/-- `PDFDocument` from main.rs. -/
structure PDFDocument where
  id : String
  name : String
  path : String
  pages : Int
  created_at : String
  updated_at : String
  annotations : Option (List PDFAnnot)

/-- The content of one stored file, as seen through `serde_json`: either it
parses as an `α` or it is malformed (with the parse error message). -/
inductive FileData (α : Type) where
  | valid (a : α)
  | malformed (errMsg : String)

/-- A directory: an association list from filename to file content.  The
filesystem keeps filenames unique; all operations below preserve that. -/
abbrev Dir (α : Type) : Type := List (String × FileData α)

/-- The notes directory. -/
abbrev NotesDir : Type := Dir Note

/-- The pdfs directory. -/
abbrev PdfsDir : Type := Dir PDFDocument

/-- Reading a file by name (`Path::exists` + `fs::read_to_string`). -/
def lookupFile {α : Type} : Dir α → String → Option (FileData α)
  | [], _ => none
  | (n, c) :: rest, name => if n = name then some c else lookupFile rest name

/-- `fs::write`: create-or-replace the file `name` with `content`. -/
def writeFile {α : Type} : Dir α → String → FileData α → Dir α
  | [], name, content => [(name, content)]
  | (n, c) :: rest, name, content =>
    if n = name then (name, content) :: rest
    else (n, c) :: writeFile rest name content

/-- `fs::remove_file`. -/
def removeFile {α : Type} (d : Dir α) (name : String) : Dir α :=
  d.filter (fun e => e.1 ≠ name)

/-- The characters after the last `.` of the list, if any. -/
def extAfterLastDot : List Char → Option (List Char)
  | [] => none
  | c :: rest =>
    match extAfterLastDot rest with
    | some ext => some ext
    | none => if c = '.' then some rest else none

/-- Rust `Path::extension` on a bare file name: the part after the last `.`,
unless there is no `.` or the only `.` starts the name (a leading `.` marks a
hidden file and never starts an extension, so the first character is always
skipped).  The special path components `.` and `..` are not file names of
this store and are not modelled. -/
def pathExtension (name : String) : Option String :=
  match name.data with
  | [] => none
  | _ :: rest => (extAfterLastDot rest).map (fun l => String.mk l)

/-- `save_note` (main.rs:87-96): serialize and overwrite `<id>.json`. -/
def saveNote (d : NotesDir) (note : Note) : Except String Unit × NotesDir :=
  (Except.ok (), writeFile d (note.id ++ ".json") (FileData.valid note))

/-- `load_note` (main.rs:99-110): NotFound if the file is absent, else parse. -/
def loadNote (d : NotesDir) (note_id : String) : Except String Note :=
  match lookupFile d (note_id ++ ".json") with
  | none => Except.error "Note not found"
  | some (FileData.valid note) => Except.ok note
  | some (FileData.malformed e) => Except.error e

/-- The metadata projection built inside `list_notes` (main.rs:124-130). -/
def metadataOfNote (note : Note) : NoteMetadata :=
  { id := note.id
    title := note.title
    created_at := note.created_at
    updated_at := note.updated_at
    tags := note.tags }

/-- The directory-scan loop of `list_notes` (main.rs:117-134): keep `.json`
files that parse as a `Note`, projected to metadata, in enumeration order. -/
def gatherNotes (d : NotesDir) : List NoteMetadata :=
  d.filterMap (fun e =>
    if pathExtension e.1 = some "json" then
      match e.2 with
      | FileData.valid note => some (metadataOfNote note)
      | FileData.malformed _ => none
    else none)

/-- The comparator of `notes.sort_by(|a, b| b.updated_at.cmp(&a.updated_at))`:
`a` may precede `b` iff `b.updated_at ≤ a.updated_at` (descending). -/
def noteMetaGE (a b : NoteMetadata) : Prop := b.updated_at ≤ a.updated_at

instance : DecidableRel noteMetaGE := fun a b =>
  decidable_of_iff (b.updated_at.toList ≤ a.updated_at.toList)
    String.le_iff_toList_le.symm

/-- `list_notes` (main.rs:113-139): scan, filter, parse, project, sort. -/
def listNotes (d : NotesDir) : List NoteMetadata :=
  List.insertionSort noteMetaGE (gatherNotes d)

/-- `delete_note` (main.rs:142-151): remove `<id>.json` if present. -/
def deleteNote (d : NotesDir) (note_id : String) : Except String Unit × NotesDir :=
  let name := note_id ++ ".json"
  if (lookupFile d name).isSome then (Except.ok (), removeFile d name)
  else (Except.ok (), d)

/-- The membership test of the title-collision loop (main.rs:165):
`existing_notes.iter().any(|note| note.title == final_title)`. -/
def titleTaken (existing : List NoteMetadata) (t : String) : Bool :=
  existing.any (fun note => note.title == t)

/-- The candidate titles `title`, `title 1`, `title 2`, … tried by
`create_note`'s collision loop. -/
def candidateTitle (title : String) : Nat → String
  | 0 => title
  | Nat.succ n => title ++ " " ++ toString (n + 1)

/-- The `while` loop of `create_note` (main.rs:165-168), fuelled.  The fuel
`existing.length + 2` used below always suffices: among the first
`existing.length + 2` pairwise-distinct candidates at most `existing.length`
can be taken. -/
def resolveTitleLoop (existing : List NoteMetadata) (title : String) :
    Nat → String → Nat → String
  | 0, finalTitle, _ => finalTitle
  | Nat.succ fuel, finalTitle, counter =>
    if titleTaken existing finalTitle then
      resolveTitleLoop existing title fuel (title ++ " " ++ toString counter) (counter + 1)
    else finalTitle

/-- The collision-resolution phase of `create_note` (main.rs:162-168). -/
def resolveTitle (existing : List NoteMetadata) (title : String) : String :=
  resolveTitleLoop existing title (existing.length + 2) title 1

/-- The note record built by `create_note` (main.rs:170-187): time-derived
ids, one heading block, string-encoded timestamps. -/
def newNote (finalTitle : String) (now : Nat) : Note :=
  { id := "note_" ++ toString now
    title := finalTitle
    blocks := [{ id := "block_" ++ toString (now + 1)
                 type := "heading"
                 content := "Untitled"
                 checked := none
                 file_path := none
                 children := none
                 order := 0 }]
    created_at := toString now
    updated_at := toString now
    tags := none }

/-- `create_note` (main.rs:154-191): resolve the title against `list_notes`,
build the note with its single heading block, persist it. -/
def createNote (d : NotesDir) (title : String) (now : Nat) :
    Except String Note × NotesDir :=
  let existing := listNotes d
  let finalTitle := resolveTitle existing title
  let note := newNote finalTitle now
  let w := saveNote d note
  (Except.ok note, w.2)

/-- `save_pdf` (main.rs:216-225). -/
def savePdf (d : PdfsDir) (pdf : PDFDocument) : Except String Unit × PdfsDir :=
  (Except.ok (), writeFile d (pdf.id ++ ".json") (FileData.valid pdf))

/-- `load_pdf` (main.rs:228-239). -/
def loadPdf (d : PdfsDir) (pdf_id : String) : Except String PDFDocument :=
  match lookupFile d (pdf_id ++ ".json") with
  | none => Except.error "PDF not found"
  | some (FileData.valid pdf) => Except.ok pdf
  | some (FileData.malformed e) => Except.error e

/-- The scan loop of `list_pdfs` (main.rs:246-256). -/
def gatherPdfs (d : PdfsDir) : List PDFDocument :=
  d.filterMap (fun e =>
    if pathExtension e.1 = some "json" then
      match e.2 with
      | FileData.valid pdf => some pdf
      | FileData.malformed _ => none
    else none)

/-- The comparator of `pdfs.sort_by(|a, b| b.updated_at.cmp(&a.updated_at))`. -/
def pdfGE (a b : PDFDocument) : Prop := b.updated_at ≤ a.updated_at

instance : DecidableRel pdfGE := fun a b =>
  decidable_of_iff (b.updated_at.toList ≤ a.updated_at.toList)
    String.le_iff_toList_le.symm

/-- `list_pdfs` (main.rs:242-261). -/
def listPdfs (d : PdfsDir) : List PDFDocument :=
  List.insertionSort pdfGE (gatherPdfs d)

/-- `delete_pdf` (main.rs:264-273). -/
def deletePdf (d : PdfsDir) (pdf_id : String) : Except String Unit × PdfsDir :=
  let name := pdf_id ++ ".json"
  if (lookupFile d name).isSome then (Except.ok (), removeFile d name)
  else (Except.ok (), d)

/-- The upsert step of `save_pdf_annotation` (main.rs:283-290):
`position(|a| a.id == annotation.id)` then replace in place, else push. -/
def upsertAnnot (anns : List PDFAnnot) (a : PDFAnnot) : List PDFAnnot :=
  match anns.findIdx? (fun x => x.id == a.id) with
  | some existing_index => anns.set existing_index a
  | none => anns ++ [a]

/-- `save_pdf_annotation` (main.rs:276-299): load the parent, default the
absent annotations list to `[]`, upsert, stamp `updated_at`, save. -/
def savePdfAnnot (d : PdfsDir) (pdf_id : String) (a : PDFAnnot) (now : Nat) :
    Except String Unit × PdfsDir :=
  match loadPdf d pdf_id with
  | Except.error e => (Except.error e, d)
  | Except.ok pdf =>
    let anns := pdf.annotations.getD []
    let pdf' := { pdf with
                  annotations := some (upsertAnnot anns a)
                  updated_at := toString now }
    savePdf d pdf'

instance : IsTotal NoteMetadata noteMetaGE :=
  ⟨fun a b => le_total b.updated_at a.updated_at⟩

instance : IsTrans NoteMetadata noteMetaGE :=
  ⟨fun _ _ _ hab hbc => le_trans hbc hab⟩

instance : IsTotal PDFDocument pdfGE :=
  ⟨fun a b => le_total b.updated_at a.updated_at⟩

instance : IsTrans PDFDocument pdfGE :=
  ⟨fun _ _ _ hab hbc => le_trans hbc hab⟩

/-- A blockless note, used for concrete test inputs. -/
def mkNote (i t ca ua : String) : Note :=
  { id := i, title := t, blocks := [], created_at := ca, updated_at := ua,
    tags := none }

/-- The metadata of `mkNote`. -/
def mkMeta (i t ca ua : String) : NoteMetadata :=
  { id := i, title := t, created_at := ca, updated_at := ua, tags := none }

/-- An annotation with fixed geometry, used for concrete test inputs. -/
def mkAnnot (i : String) (c : Option String) : PDFAnnot :=
  { id := i, annotation_type := "comment", content := c, page := 1,
    rect := [], color := none }

/-- A pdf document, used for concrete test inputs. -/
def mkPdf (i : String) (anns : Option (List PDFAnnot)) : PDFDocument :=
  { id := i, name := "doc", path := "/p", pages := 1, created_at := "0",
    updated_at := "0", annotations := anns }

/-! ## Basic directory lemmas -/

theorem lookupFile_writeFile_self {α : Type} (d : Dir α) (name : String)
    (c : FileData α) : lookupFile (writeFile d name c) name = some c := by
  induction d with
  | nil => simp [writeFile, lookupFile]
  | cons e rest ih =>
    by_cases h : e.1 = name
    · simp [writeFile, h, lookupFile]
    · simp [writeFile, h, lookupFile, ih]

/-- C1: saving a note and loading it back by its id returns the same note,
including blocks, timestamps and tags. -/
theorem save_load_roundtrip (d : NotesDir) (n : Note) :
    (saveNote d n).1 = Except.ok () ∧
    loadNote (saveNote d n).2 n.id = Except.ok n := by
  refine ⟨rfl, ?_⟩
  simp [saveNote, loadNote, lookupFile_writeFile_self]

theorem lookupFile_writeFile_ne {α : Type} (d : Dir α) (name name' : String)
    (c : FileData α) (h : name' ≠ name) :
    lookupFile (writeFile d name c) name' = lookupFile d name' := by
  induction d with
  | nil => simp [writeFile, lookupFile, Ne.symm h]
  | cons e rest ih =>
    obtain ⟨n0, c0⟩ := e
    by_cases he : n0 = name
    · subst he
      simp [writeFile, lookupFile, Ne.symm h]
    · simp [writeFile, he, lookupFile, ih]

theorem lookupFile_removeFile_self {α : Type} (d : Dir α) (name : String) :
    lookupFile (removeFile d name) name = none := by
  induction d with
  | nil => simp [removeFile, lookupFile]
  | cons e rest ih =>
    by_cases he : e.1 = name
    · simpa [removeFile, he] using ih
    · simpa [removeFile, lookupFile, he] using ih

/-- C6: loading an id with no backing `<id>.json` file fails with the
dedicated NotFound error (`"Note not found"` / `"PDF not found"`), for both
stores; a present-but-malformed file instead surfaces the parse error
message, so the NotFound case is a distinguished outcome, not a crash. -/
theorem load_missing_not_found :
    (∀ (d : NotesDir) (id : String), lookupFile d (id ++ ".json") = none →
      loadNote d id = Except.error "Note not found") ∧
    (∀ (d : PdfsDir) (id : String), lookupFile d (id ++ ".json") = none →
      loadPdf d id = Except.error "PDF not found") ∧
    (∀ (d : NotesDir) (id e : String),
      lookupFile d (id ++ ".json") = some (FileData.malformed e) →
      loadNote d id = Except.error e) ∧
    (∀ (d : PdfsDir) (id e : String),
      lookupFile d (id ++ ".json") = some (FileData.malformed e) →
      loadPdf d id = Except.error e) := by
  refine ⟨?_, ?_, ?_, ?_⟩ <;> intro d id <;> first
    | (intro h; simp [loadNote, loadPdf, h])
    | (intro e h; simp [loadNote, loadPdf, h])

theorem load_missing_not_found_witness :
    (lookupFile ([] : NotesDir) ("nonexistent" ++ ".json") = none) ∧
    loadNote [] "nonexistent" = Except.error "Note not found" :=
  ⟨rfl, load_missing_not_found.1 [] "nonexistent" rfl⟩

/-- C9: `delete_note` (and `delete_pdf`) always succeeds, leaves the file
absent, and a second delete of the same id succeeds as a no-op on an
unchanged directory. -/
theorem delete_idempotent :
    (∀ (d : NotesDir) (id : String),
      (deleteNote d id).1 = Except.ok () ∧
      lookupFile (deleteNote d id).2 (id ++ ".json") = none ∧
      deleteNote (deleteNote d id).2 id = (Except.ok (), (deleteNote d id).2)) ∧
    (∀ (d : PdfsDir) (id : String),
      (deletePdf d id).1 = Except.ok () ∧
      lookupFile (deletePdf d id).2 (id ++ ".json") = none ∧
      deletePdf (deletePdf d id).2 id = (Except.ok (), (deletePdf d id).2)) := by
  constructor <;> intro d id <;>
    by_cases h : (lookupFile d (id ++ ".json")).isSome
  · have h2 : deleteNote d id = (Except.ok (), removeFile d (id ++ ".json")) := by
      simp [deleteNote, h]
    rw [h2]
    exact ⟨rfl, lookupFile_removeFile_self d _,
      by simp [deleteNote, lookupFile_removeFile_self]⟩
  · have hnone : lookupFile d (id ++ ".json") = none :=
      Option.not_isSome_iff_eq_none.mp h
    have h2 : deleteNote d id = (Except.ok (), d) := by simp [deleteNote, h]
    rw [h2]
    exact ⟨rfl, hnone, by simp [deleteNote, hnone]⟩
  · have h2 : deletePdf d id = (Except.ok (), removeFile d (id ++ ".json")) := by
      simp [deletePdf, h]
    rw [h2]
    exact ⟨rfl, lookupFile_removeFile_self d _,
      by simp [deletePdf, lookupFile_removeFile_self]⟩
  · have hnone : lookupFile d (id ++ ".json") = none :=
      Option.not_isSome_iff_eq_none.mp h
    have h2 : deletePdf d id = (Except.ok (), d) := by simp [deletePdf, h]
    rw [h2]
    exact ⟨rfl, hnone, by simp [deletePdf, hnone]⟩

/-- C8 counterexample: `save_note` stores the caller-supplied `updated_at`
verbatim and enforces no monotonicity.  Saving a note with `updated_at = "5"`
and then saving the same id with `updated_at = "3"` leaves the stored
`updated_at` strictly below its previous value. -/
theorem save_note_updated_at_can_decrease :
    loadNote (saveNote [] (mkNote "n" "t" "0" "5")).2 "n"
      = Except.ok (mkNote "n" "t" "0" "5") ∧
    loadNote (saveNote (saveNote [] (mkNote "n" "t" "0" "5")).2
        (mkNote "n" "t" "0" "3")).2 "n"
      = Except.ok (mkNote "n" "t" "0" "3") ∧
    (mkNote "n" "t" "0" "5").updated_at = "5" ∧
    (mkNote "n" "t" "0" "3").updated_at = "3" ∧
    ¬ (("5" : String) ≤ "3") :=
  ⟨rfl, rfl, rfl, rfl, by rw [String.le_iff_toList_le]; decide⟩

/-- C8 (amended): `save_note` is a verbatim overwrite — after each save the
stored note, and so its `updated_at`, is exactly the note passed in.  Hence
`updated_at` is monotonic across saves of one id exactly when the callers
supply non-decreasing values; `save_note` itself does not enforce this. -/
theorem save_note_stores_updated_at_verbatim (d : NotesDir) (n1 n2 : Note)
    (h : n2.id = n1.id) :
    loadNote (saveNote d n1).2 n1.id = Except.ok n1 ∧
    loadNote (saveNote (saveNote d n1).2 n2).2 n1.id = Except.ok n2 := by
  constructor
  · simp [saveNote, loadNote, lookupFile_writeFile_self]
  · simp [saveNote, loadNote, h, lookupFile_writeFile_self]

theorem save_note_stores_updated_at_verbatim_witness :
    ((mkNote "n" "t" "0" "2").id = (mkNote "n" "t" "0" "1").id) ∧
    (loadNote (saveNote [] (mkNote "n" "t" "0" "1")).2 (mkNote "n" "t" "0" "1").id
        = Except.ok (mkNote "n" "t" "0" "1") ∧
      loadNote (saveNote (saveNote [] (mkNote "n" "t" "0" "1")).2
          (mkNote "n" "t" "0" "2")).2 (mkNote "n" "t" "0" "1").id
        = Except.ok (mkNote "n" "t" "0" "2")) :=
  ⟨rfl, save_note_stores_updated_at_verbatim []
    (mkNote "n" "t" "0" "1") (mkNote "n" "t" "0" "2") rfl⟩

/-- C4: both listings are sorted by `updated_at` descending under the
lexicographic string order, and the spec's example `"100"`, `"300"`, `"200"`
comes back in the order `300, 200, 100`. -/
theorem list_sorted_desc :
    (∀ d : NotesDir,
      List.Sorted (fun a b => b.updated_at ≤ a.updated_at) (listNotes d)) ∧
    (∀ d : PdfsDir,
      List.Sorted (fun a b => b.updated_at ≤ a.updated_at) (listPdfs d)) ∧
    listNotes [("a.json", FileData.valid (mkNote "a" "A" "0" "100")),
               ("b.json", FileData.valid (mkNote "b" "B" "0" "300")),
               ("c.json", FileData.valid (mkNote "c" "C" "0" "200"))]
      = [mkMeta "b" "B" "0" "300", mkMeta "c" "C" "0" "200",
         mkMeta "a" "A" "0" "100"] := by
  refine ⟨fun d => List.sorted_insertionSort noteMetaGE (gatherNotes d),
          fun d => List.sorted_insertionSort pdfGE (gatherPdfs d), ?_⟩
  decide

/-- Membership in the `list_notes` result: exactly the projections of the
`.json`-named files whose content parses as a `Note`. -/
theorem mem_listNotes_iff (d : NotesDir) (m : NoteMetadata) :
    m ∈ listNotes d ↔ ∃ e, e ∈ d ∧ pathExtension e.1 = some "json" ∧
      ∃ n : Note, e.2 = FileData.valid n ∧ m = metadataOfNote n := by
  simp only [listNotes, List.mem_insertionSort, gatherNotes, List.mem_filterMap]
  constructor
  · rintro ⟨⟨name, fd⟩, he, hf⟩
    cases fd with
    | valid n =>
      by_cases hext : pathExtension name = some "json"
      · rw [if_pos hext] at hf
        simp only [Option.some.injEq] at hf
        exact ⟨(name, FileData.valid n), he, hext, n, rfl, hf.symm⟩
      · rw [if_neg hext] at hf
        exact Option.noConfusion hf
    | malformed s =>
      by_cases hext : pathExtension name = some "json"
      · rw [if_pos hext] at hf
        exact Option.noConfusion hf
      · rw [if_neg hext] at hf
        exact Option.noConfusion hf
  · rintro ⟨⟨name, fd⟩, he, hext, n, h2, rfl⟩
    simp only at h2
    subst h2
    exact ⟨(name, FileData.valid n), he, by rw [if_pos hext]⟩

/-- C5: `list_notes` keeps exactly the `.json`-named files whose content
parses as a `Note`, projected to metadata (malformed files are skipped, they
never fail the listing); on a directory with one malformed and two valid
note files (plus a non-json file) the result is exactly the two valid
entries. -/
theorem list_notes_scan :
    (∀ (d : NotesDir) (m : NoteMetadata),
      m ∈ listNotes d ↔ ∃ e, e ∈ d ∧ pathExtension e.1 = some "json" ∧
        ∃ n : Note, e.2 = FileData.valid n ∧ m = metadataOfNote n) ∧
    listNotes [("good1.json", FileData.valid (mkNote "g1" "G1" "0" "2")),
               ("bad.json", FileData.malformed "expected value at line 1"),
               ("good2.json", FileData.valid (mkNote "g2" "G2" "0" "1")),
               ("readme.txt", FileData.valid (mkNote "g3" "G3" "0" "9"))]
      = [mkMeta "g1" "G1" "0" "2", mkMeta "g2" "G2" "0" "1"] :=
  ⟨fun d m => mem_listNotes_iff d m, by decide⟩

/-- One successful `save_pdf_annotation` call, computed: the parent loads,
the upserted document is written back at `<pdfId>.json`. -/
theorem savePdfAnnot_step (d : PdfsDir) (pdf_id : String) (pdf : PDFDocument)
    (a : PDFAnnot) (now : Nat)
    (hload : lookupFile d (pdf_id ++ ".json") = some (FileData.valid pdf))
    (hid : pdf.id = pdf_id) :
    savePdfAnnot d pdf_id a now =
      (Except.ok (), writeFile d (pdf_id ++ ".json") (FileData.valid
        { pdf with
          annotations := some (upsertAnnot (pdf.annotations.getD []) a)
          updated_at := toString now })) := by
  simp [savePdfAnnot, loadPdf, hload, savePdf, hid]

/-- C7: `save_pdf_annotation` on a pdf id with no stored document fails with
the NotFound error of `load_pdf` and leaves the store untouched. -/
theorem save_annot_missing_no_write (d : PdfsDir) (pdf_id : String)
    (a : PDFAnnot) (now : Nat)
    (h : lookupFile d (pdf_id ++ ".json") = none) :
    savePdfAnnot d pdf_id a now = (Except.error "PDF not found", d) := by
  simp [savePdfAnnot, loadPdf, h]

theorem save_annot_missing_no_write_witness :
    (lookupFile ([] : PdfsDir) ("nope" ++ ".json") = none) ∧
    savePdfAnnot [] "nope" (mkAnnot "a1" none) 7
      = (Except.error "PDF not found", []) :=
  ⟨rfl, save_annot_missing_no_write [] "nope" (mkAnnot "a1" none) 7 rfl⟩

/-- C2: `save_pdf_annotation` upserts by id — the first annotation whose id
matches is replaced in place, otherwise the annotation is appended — and
saving two annotations with the same id (no such id stored before) leaves
exactly one annotation with that id, holding the second one's content. -/
theorem save_annot_upsert (d : PdfsDir) (pdf_id : String) (pdf : PDFDocument)
    (a : PDFAnnot) (now : Nat)
    (hload : lookupFile d (pdf_id ++ ".json") = some (FileData.valid pdf))
    (hid : pdf.id = pdf_id) :
    ((savePdfAnnot d pdf_id a now).1 = Except.ok () ∧
      ∃ pdf1, lookupFile (savePdfAnnot d pdf_id a now).2 (pdf_id ++ ".json")
          = some (FileData.valid pdf1) ∧
        pdf1.annotations = some (upsertAnnot (pdf.annotations.getD []) a)) ∧
    (∀ i (hi : i < (pdf.annotations.getD []).length),
      ((pdf.annotations.getD [])[i]).id = a.id →
      (∀ j (hj : j < i),
        ((pdf.annotations.getD []).get ⟨j, Nat.lt_trans hj hi⟩).id ≠ a.id) →
      upsertAnnot (pdf.annotations.getD []) a = (pdf.annotations.getD []).set i a) ∧
    ((∀ x ∈ pdf.annotations.getD [], x.id ≠ a.id) →
      upsertAnnot (pdf.annotations.getD []) a = pdf.annotations.getD [] ++ [a]) ∧
    (∀ (a2 : PDFAnnot) (now2 : Nat), a2.id = a.id →
      (∀ x ∈ pdf.annotations.getD [], x.id ≠ a.id) →
      ∃ pdf2,
        lookupFile (savePdfAnnot (savePdfAnnot d pdf_id a now).2 pdf_id a2 now2).2
            (pdf_id ++ ".json") = some (FileData.valid pdf2) ∧
        pdf2.annotations = some (pdf.annotations.getD [] ++ [a2]) ∧
        (pdf.annotations.getD [] ++ [a2]).filter (fun x => x.id == a.id) = [a2]) := by
  have h1 := savePdfAnnot_step d pdf_id pdf a now hload hid
  refine ⟨⟨by rw [h1], ?_⟩, ?_, ?_, ?_⟩
  · rw [h1]
    exact ⟨_, lookupFile_writeFile_self d _ _, rfl⟩
  · intro i hi hpi hmin
    have hfind : (pdf.annotations.getD []).findIdx? (fun x => x.id == a.id)
        = some i := by
      rw [List.findIdx?_eq_some_iff_getElem]
      refine ⟨hi, by simp [hpi], fun j hj => ?_⟩
      have hne := hmin j hj
      simp only [List.get_eq_getElem] at hne
      simp [hne]
    simp [upsertAnnot, hfind]
  · intro hall
    have hfind : (pdf.annotations.getD []).findIdx? (fun x => x.id == a.id)
        = none := by
      rw [List.findIdx?_eq_none_iff]
      intro x hx
      simp [hall x hx]
    simp [upsertAnnot, hfind]
  · intro a2 now2 ha2 hall
    have hfind : (pdf.annotations.getD []).findIdx? (fun x => x.id == a.id)
        = none := by
      rw [List.findIdx?_eq_none_iff]
      intro x hx
      simp [hall x hx]
    have hupsert1 : upsertAnnot (pdf.annotations.getD []) a
        = pdf.annotations.getD [] ++ [a] := by simp [upsertAnnot, hfind]
    have hload1 : lookupFile (savePdfAnnot d pdf_id a now).2 (pdf_id ++ ".json")
        = some (FileData.valid
          { pdf with
            annotations := some (upsertAnnot (pdf.annotations.getD []) a)
            updated_at := toString now }) := by
      rw [h1]
      exact lookupFile_writeFile_self d _ _
    have h2 := savePdfAnnot_step (savePdfAnnot d pdf_id a now).2 pdf_id
      { pdf with
        annotations := some (upsertAnnot (pdf.annotations.getD []) a)
        updated_at := toString now } a2 now2 hload1 hid
    have hfind2 : (upsertAnnot (pdf.annotations.getD []) a).findIdx?
        (fun x => x.id == a2.id) = some (pdf.annotations.getD []).length := by
      rw [hupsert1, List.findIdx?_append]
      have hnone2 : (pdf.annotations.getD []).findIdx? (fun x => x.id == a2.id)
          = none := by
        rw [List.findIdx?_eq_none_iff]
        intro x hx
        simp [ha2, hall x hx]
      rw [hnone2]
      simp [ha2]
    have hset : (pdf.annotations.getD [] ++ [a]).set
          (pdf.annotations.getD []).length a2
        = pdf.annotations.getD [] ++ [a2] := by
      rw [List.set_append_right _ _ (Nat.le_refl _)]
      simp
    have hupsert2 : upsertAnnot (upsertAnnot (pdf.annotations.getD []) a) a2
        = pdf.annotations.getD [] ++ [a2] := by
      rw [upsertAnnot, hfind2, hupsert1]
      exact hset
    refine ⟨_, by rw [h2]; exact lookupFile_writeFile_self _ _ _, ?_, ?_⟩
    · show some (upsertAnnot (upsertAnnot (pdf.annotations.getD []) a) a2)
        = some (pdf.annotations.getD [] ++ [a2])
      rw [hupsert2]
    · rw [List.filter_append]
      have : (pdf.annotations.getD []).filter (fun x => x.id == a.id) = [] := by
        rw [List.filter_eq_nil_iff]
        intro x hx
        simp [hall x hx]
      rw [this]
      simp [ha2]

theorem save_annot_upsert_witness :
    (lookupFile [("p.json", FileData.valid (mkPdf "p" (some [])))] ("p" ++ ".json")
        = some (FileData.valid (mkPdf "p" (some [])))) ∧
    ((mkPdf "p" (some [])).id = "p") ∧
    ((savePdfAnnot [("p.json", FileData.valid (mkPdf "p" (some [])))] "p"
        (mkAnnot "a1" (some "one")) 5).1 = Except.ok () ∧
      ∃ pdf1, lookupFile (savePdfAnnot [("p.json", FileData.valid (mkPdf "p" (some [])))]
          "p" (mkAnnot "a1" (some "one")) 5).2 ("p" ++ ".json")
          = some (FileData.valid pdf1) ∧
        pdf1.annotations = some (upsertAnnot ((mkPdf "p" (some [])).annotations.getD [])
          (mkAnnot "a1" (some "one")))) :=
  ⟨rfl, rfl, (save_annot_upsert [("p.json", FileData.valid (mkPdf "p" (some [])))]
    "p" (mkPdf "p" (some [])) (mkAnnot "a1" (some "one")) 5 rfl rfl).1⟩

/-- C10: a successful `save_pdf_annotation` touches only the target file; in
the stored document only the annotations list and `updated_at` change: the
identity fields are preserved, the annotations list is always present
afterwards, and it differs from the old one (defaulted to `[]` if absent)
only at one position `i` — replaced or appended — with every other
annotation unchanged and in its original relative order. -/
theorem save_annot_frame (d : PdfsDir) (pdf_id : String) (pdf : PDFDocument)
    (a : PDFAnnot) (now : Nat)
    (hload : lookupFile d (pdf_id ++ ".json") = some (FileData.valid pdf))
    (hid : pdf.id = pdf_id) :
    (savePdfAnnot d pdf_id a now).1 = Except.ok () ∧
    (∀ name, name ≠ pdf_id ++ ".json" →
      lookupFile (savePdfAnnot d pdf_id a now).2 name = lookupFile d name) ∧
    ∃ pdf', lookupFile (savePdfAnnot d pdf_id a now).2 (pdf_id ++ ".json")
        = some (FileData.valid pdf') ∧
      pdf'.id = pdf.id ∧ pdf'.name = pdf.name ∧ pdf'.path = pdf.path ∧
      pdf'.pages = pdf.pages ∧ pdf'.created_at = pdf.created_at ∧
      pdf'.updated_at = toString now ∧
      ∃ i, i ≤ (pdf.annotations.getD []).length ∧
        pdf'.annotations = some ((pdf.annotations.getD []).take i ++ a ::
          (pdf.annotations.getD []).drop (i + 1)) := by
  have h1 := savePdfAnnot_step d pdf_id pdf a now hload hid
  refine ⟨by rw [h1],
    fun name hne => by rw [h1]; exact lookupFile_writeFile_ne d _ name _ hne, ?_⟩
  refine ⟨{ pdf with
      annotations := some (upsertAnnot (pdf.annotations.getD []) a)
      updated_at := toString now },
    by rw [h1]; exact lookupFile_writeFile_self d _ _,
    rfl, rfl, rfl, rfl, rfl, rfl, ?_⟩
  cases hfind : (pdf.annotations.getD []).findIdx? (fun x => x.id == a.id) with
  | none =>
    refine ⟨(pdf.annotations.getD []).length, Nat.le_refl _, ?_⟩
    show some (upsertAnnot (pdf.annotations.getD []) a) = _
    rw [upsertAnnot, hfind]
    simp [List.drop_eq_nil_of_le]
  | some i =>
    obtain ⟨hi, -, -⟩ := List.findIdx?_eq_some_iff_getElem.mp hfind
    refine ⟨i, Nat.le_of_lt hi, ?_⟩
    show some (upsertAnnot (pdf.annotations.getD []) a) = _
    rw [upsertAnnot, hfind]
    exact congrArg some (List.set_eq_take_cons_drop a hi)

theorem save_annot_frame_witness :
    (lookupFile [("q.json", FileData.valid (mkPdf "q" none))] ("q" ++ ".json")
        = some (FileData.valid (mkPdf "q" none))) ∧
    ((mkPdf "q" none).id = "q") ∧
    (savePdfAnnot [("q.json", FileData.valid (mkPdf "q" none))] "q"
        (mkAnnot "a2" none) 9).1 = Except.ok () :=
  ⟨rfl, rfl, (save_annot_frame [("q.json", FileData.valid (mkPdf "q" none))]
    "q" (mkPdf "q" none) (mkAnnot "a2" none) 9 rfl rfl).1⟩

theorem mem_writeFile_self {α : Type} (d : Dir α) (name : String) (c : FileData α) :
    (name, c) ∈ writeFile d name c := by
  induction d with
  | nil => simp [writeFile]
  | cons e rest ih =>
    obtain ⟨n0, c0⟩ := e
    by_cases h : n0 = name
    · simp [writeFile, h]
    · simp [writeFile, h, ih]

theorem mem_writeFile_elim {α : Type} (d : Dir α) (name : String) (c : FileData α)
    (e : String × FileData α) (he : e ∈ writeFile d name c) :
    e = (name, c) ∨ e ∈ d := by
  induction d with
  | nil =>
    simp [writeFile] at he
    exact Or.inl he
  | cons f rest ih =>
    obtain ⟨n0, c0⟩ := f
    by_cases h : n0 = name
    · simp only [writeFile, h, if_pos] at he
      rcases List.mem_cons.mp he with h1 | h2
      · exact Or.inl h1
      · exact Or.inr (List.mem_cons_of_mem _ h2)
    · simp only [writeFile, h, if_false, List.mem_cons] at he
      rcases he with h1 | h2
      · exact Or.inr (h1 ▸ List.mem_cons_self _ _)
      · rcases ih h2 with h3 | h4
        · exact Or.inl h3
        · exact Or.inr (List.mem_cons_of_mem _ h4)

theorem extAfterLastDot_append (l m : List Char)
    (h : (extAfterLastDot m).isSome) :
    extAfterLastDot (l ++ m) = extAfterLastDot m := by
  obtain ⟨v, hv⟩ := Option.isSome_iff_exists.mp h
  induction l with
  | nil => rfl
  | cons c rest ih =>
    have hunfold : extAfterLastDot (c :: (rest ++ m)) =
        match extAfterLastDot (rest ++ m) with
        | some ext => some ext
        | none => if c = '.' then some (rest ++ m) else none := rfl
    rw [List.cons_append, hunfold, ih, hv]

theorem pathExtension_append_json (s : String) (hs : s.data ≠ []) :
    pathExtension (s ++ ".json") = some "json" := by
  have hsome : (extAfterLastDot (".json".data)).isSome := by decide
  obtain ⟨c, cs, hcs⟩ : ∃ c cs, s.data = c :: cs := by
    cases hd : s.data with
    | nil => exact absurd hd hs
    | cons c cs => exact ⟨c, cs, rfl⟩
  simp only [pathExtension, String.data_append, hcs, List.cons_append]
  rw [extAfterLastDot_append cs (".json".data) hsome]
  decide

theorem resolveTitleLoop_eq (existing : List NoteMetadata) (title : String) :
    ∀ (fuel m k : Nat), m ≤ k → k - m < fuel →
      (∀ j, m ≤ j → j < k → titleTaken existing (candidateTitle title j) = true) →
      titleTaken existing (candidateTitle title k) = false →
      resolveTitleLoop existing title fuel (candidateTitle title m) (m + 1)
        = candidateTitle title k
  | 0, _, _, _, hlt, _, _ => absurd hlt (by omega)
  | Nat.succ fuel, m, k, hmk, hlt, htaken, hfree => by
    by_cases heq : m = k
    · subst heq
      calc resolveTitleLoop existing title (Nat.succ fuel) (candidateTitle title m)
            (m + 1)
          = if titleTaken existing (candidateTitle title m) = true then
              resolveTitleLoop existing title fuel
                (title ++ " " ++ toString (m + 1)) (m + 1 + 1)
            else candidateTitle title m := rfl
        _ = candidateTitle title m := if_neg (by simp [hfree])
    · have hmk' : m < k := Nat.lt_of_le_of_ne hmk heq
      have htm := htaken m (Nat.le_refl m) hmk'
      have hrec := resolveTitleLoop_eq existing title fuel (m + 1) k hmk' (by omega)
        (fun j hj1 hj2 => htaken j (Nat.le_trans (Nat.le_succ m) hj1) hj2) hfree
      calc resolveTitleLoop existing title (Nat.succ fuel) (candidateTitle title m)
            (m + 1)
          = if titleTaken existing (candidateTitle title m) = true then
              resolveTitleLoop existing title fuel
                (title ++ " " ++ toString (m + 1)) (m + 1 + 1)
            else candidateTitle title m := rfl
        _ = resolveTitleLoop existing title fuel
              (title ++ " " ++ toString (m + 1)) (m + 1 + 1) := if_pos htm
        _ = candidateTitle title k := hrec

theorem resolveTitle_eq (existing : List NoteMetadata) (title : String) (k : Nat)
    (hk : k < existing.length + 2)
    (htaken : ∀ j, j < k → titleTaken existing (candidateTitle title j) = true)
    (hfree : titleTaken existing (candidateTitle title k) = false) :
    resolveTitle existing title = candidateTitle title k :=
  resolveTitleLoop_eq existing title (existing.length + 2) 0 k (Nat.zero_le k)
    (by omega) (fun j _ hj => htaken j hj) hfree

theorem self_ne_append_one (s : String) : s ≠ s ++ " 1" := by
  intro h
  have hlen := congrArg String.length h
  rw [String.length_append] at hlen
  have h2 : (" 1" : String).length = 2 := rfl
  rw [h2] at hlen
  omega

theorem candidateTitle_one (title : String) :
    candidateTitle title 1 = title ++ " 1" := by
  show title ++ " " ++ toString (0 + 1) = title ++ " 1"
  have h1 : (" " : String) ++ toString (0 + 1) = " 1" := by decide
  rw [String.append_assoc, h1]

/-- C3: `create_note` resolves title collisions against the titles reported
by `list_notes`: the stored title is the first candidate `title`,
`title 1`, `title 2`, … not already taken; in particular two sequential
creates of the same fresh title yield `title` and then `title ++ " 1"`. -/
theorem create_note_title_collision :
    (∀ (d : NotesDir) (title : String) (now k : Nat),
      k < (listNotes d).length + 2 →
      (∀ j, j < k → titleTaken (listNotes d) (candidateTitle title j) = true) →
      titleTaken (listNotes d) (candidateTitle title k) = false →
      ∃ n, (createNote d title now).1 = Except.ok n ∧
        n.title = candidateTitle title k) ∧
    (∀ (d : NotesDir) (title : String) (t1 t2 : Nat),
      titleTaken (listNotes d) title = false →
      titleTaken (listNotes d) (title ++ " 1") = false →
      ∃ n1 n2, (createNote d title t1).1 = Except.ok n1 ∧ n1.title = title ∧
        (createNote (createNote d title t1).2 title t2).1 = Except.ok n2 ∧
        n2.title = title ++ " 1") := by
  constructor
  · intro d title now k hk htaken hfree
    exact ⟨newNote (resolveTitle (listNotes d) title) now, rfl,
      resolveTitle_eq (listNotes d) title k hk htaken hfree⟩
  · intro d title t1 t2 hfree0 hfree1
    have hres1 : resolveTitle (listNotes d) title = candidateTitle title 0 :=
      resolveTitle_eq (listNotes d) title 0 (by omega)
        (fun j hj => absurd hj (Nat.not_lt_zero j)) hfree0
    have hd1 : (createNote d title t1).2
        = writeFile d ((newNote (resolveTitle (listNotes d) title) t1).id ++ ".json")
          (FileData.valid (newNote (resolveTitle (listNotes d) title) t1)) := rfl
    have hstem : ("note_" ++ toString t1).data ≠ [] := by
      rw [String.data_append]
      intro hcontra
      have hlen := congrArg List.length hcontra
      rw [List.length_append] at hlen
      have h5 : ("note_".data).length = 5 := rfl
      rw [h5, List.length_nil] at hlen
      omega
    have hext1 : pathExtension
        ((newNote (resolveTitle (listNotes d) title) t1).id ++ ".json")
        = some "json" := pathExtension_append_json _ hstem
    have hmem1 : metadataOfNote (newNote (resolveTitle (listNotes d) title) t1)
        ∈ listNotes (createNote d title t1).2 := by
      rw [hd1]
      exact (mem_listNotes_iff _ _).mpr
        ⟨((newNote (resolveTitle (listNotes d) title) t1).id ++ ".json",
          FileData.valid (newNote (resolveTitle (listNotes d) title) t1)),
          mem_writeFile_self d _ _, hext1,
          newNote (resolveTitle (listNotes d) title) t1, rfl, rfl⟩
    have htitle1 : (metadataOfNote (newNote (resolveTitle (listNotes d) title) t1)).title
        = title := hres1
    have hA : titleTaken (listNotes (createNote d title t1).2) title = true := by
      refine List.any_eq_true.mpr
        ⟨metadataOfNote (newNote (resolveTitle (listNotes d) title) t1), hmem1, ?_⟩
      rw [htitle1]
      exact beq_self_eq_true title
    have hB : titleTaken (listNotes (createNote d title t1).2) (title ++ " 1")
        = false := by
      rw [Bool.eq_false_iff]
      intro htrue
      obtain ⟨x, hx, hpx⟩ := List.any_eq_true.mp htrue
      have hxeq : x.title = title ++ " 1" := by simpa using hpx
      rw [hd1] at hx
      obtain ⟨e, he, hext, n, hvalid, hxm⟩ := (mem_listNotes_iff _ _).mp hx
      rcases mem_writeFile_elim d _ _ e he with h1 | h2
      · subst h1
        have h3 : newNote (resolveTitle (listNotes d) title) t1 = n :=
          FileData.valid.inj
            (show FileData.valid (newNote (resolveTitle (listNotes d) title) t1)
              = FileData.valid n from hvalid)
        subst h3
        rw [hxm] at hxeq
        exact absurd (htitle1.symm.trans hxeq) (self_ne_append_one title)
      · have hxd : x ∈ listNotes d :=
          (mem_listNotes_iff _ _).mpr ⟨e, h2, hext, n, hvalid, hxm⟩
        have hcontra : titleTaken (listNotes d) (title ++ " 1") = true :=
          List.any_eq_true.mpr ⟨x, hxd, hpx⟩
        rw [hfree1] at hcontra
        exact Bool.false_ne_true hcontra
    have hres2 : resolveTitle (listNotes (createNote d title t1).2) title
        = candidateTitle title 1 := by
      apply resolveTitle_eq
      · omega
      · intro j hj
        have hj0 : j = 0 := by omega
        subst hj0
        exact hA
      · rw [candidateTitle_one]
        exact hB
    exact ⟨newNote (resolveTitle (listNotes d) title) t1,
      newNote (resolveTitle (listNotes (createNote d title t1).2) title) t2,
      rfl, hres1, rfl, hres2.trans (candidateTitle_one title)⟩

theorem create_note_title_collision_witness :
    (titleTaken (listNotes ([] : NotesDir)) "X" = false) ∧
    (titleTaken (listNotes ([] : NotesDir)) ("X" ++ " 1") = false) ∧
    (∃ n1 n2, (createNote ([] : NotesDir) "X" 0).1 = Except.ok n1 ∧
      n1.title = "X" ∧
      (createNote (createNote ([] : NotesDir) "X" 0).2 "X" 1).1 = Except.ok n2 ∧
      n2.title = "X" ++ " 1") :=
  ⟨by decide, by decide,
    create_note_title_collision.2 [] "X" 0 1 (by decide) (by decide)⟩
